import Mathlib

/-!
Verification of the bucket-policy subsystem of the noobaa-sa-ci test harness.

Python strings are modelled as `List Char` (`Str`), Python/JSON values as the
inductive `JVal`, and the Python modules are translated into executable Lean
definitions:

* `json_dumps` / `json_loads` model the `json.dumps(..., indent=4)` /
  `json.loads` calls used by `BucketPolicy.__str__` and `BucketPolicy.from_json`
  (string escaping is modelled for the quote and backslash characters, which is
  what the serializer emits for the repository's data).
* `BucketPolicy` and the two `BucketPolicyBuilder` variants follow
  `framework/bucket_policies/bucket_policy.py` and `noobaa_sa/bucket_policy.py`.
* The access-validation factory, strategies, tester and the policy evaluator
  follow `framework/bucket_policies/` and the spec where the module is absent
  from the source tree.
-/

/-- Python `str` modelled as a list of characters. -/
abbrev Str := List Char

/-- Shorthand turning a Lean string literal into the `Str` model. -/
def str (s : String) : Str := s.data

/-- Python / JSON value as used by the bucket-policy code: strings, arrays and
objects (dicts with insertion-ordered keys). -/
inductive JVal where
  | str (s : Str)
  | arr (xs : List JVal)
  | obj (fields : List (Str × JVal))

/-- Characters treated as whitespace by the JSON reader. -/
def isWs (c : Char) : Bool := c = ' ' ∨ c = '\n' ∨ c = '\t' ∨ c = '\r'

/-- Drop leading JSON whitespace. -/
def skipWs : Str → Str
  | [] => []
  | c :: rest => if isWs c then skipWs rest else c :: rest

/-- Escape one character for a JSON string literal (quote and backslash). -/
def escChar (c : Char) : Str :=
  if c = '"' ∨ c = '\\' then ['\\', c] else [c]

/-- Escape the body of a JSON string literal. -/
def escStr : Str → Str
  | [] => []
  | c :: rest => escChar c ++ escStr rest

/-- Render a JSON string literal with surrounding quotes. -/
def jquote (s : Str) : Str := '"' :: escStr s ++ ['"']

/-- Indentation padding of `n` spaces. -/
def padSp (n : Nat) : Str := List.replicate n ' '

mutual

/-- Pretty-print a JSON value in the style of Python `json.dumps(..., indent=4)`
at the given current indentation. -/
def ppVal (ind : Nat) : JVal → Str
  | .str s => jquote s
  | .arr [] => ['[', ']']
  | .arr (x :: xs) =>
    '[' :: ppItems (ind + 4) x xs ++ '\n' :: padSp ind ++ [']']
  | .obj [] => ['\x7b', '\x7d']
  | .obj ((k, v) :: fs) =>
    '\x7b' :: ppMembers (ind + 4) k v fs ++ '\n' :: padSp ind ++ ['\x7d']
termination_by j => sizeOf j
decreasing_by all_goals (simp_wf; try omega)

/-- Pretty-print a nonempty run of array items, each on its own indented line. -/
def ppItems : Nat → JVal → List JVal → Str
  | ind, x, [] => '\n' :: padSp ind ++ ppVal ind x
  | ind, x, y :: ys => '\n' :: padSp ind ++ ppVal ind x ++ ',' :: ppItems ind y ys
termination_by _ x xs => 1 + sizeOf x + sizeOf xs
decreasing_by all_goals (simp_wf; try omega)

/-- Pretty-print a nonempty run of object members, each on its own line. -/
def ppMembers : Nat → Str → JVal → List (Str × JVal) → Str
  | ind, k, v, [] => '\n' :: padSp ind ++ jquote k ++ ':' :: ' ' :: ppVal ind v
  | ind, k, v, (k2, v2) :: gs =>
    '\n' :: padSp ind ++ jquote k ++ ':' :: ' ' :: ppVal ind v ++
      ',' :: ppMembers ind k2 v2 gs
termination_by _ _ v fs => 1 + sizeOf v + sizeOf fs
decreasing_by all_goals (simp_wf; try omega)

end

/-- Model of `json.dumps(value, indent=4)`. -/
def json_dumps (j : JVal) : Str := ppVal 0 j

/-- Head-character test used by the JSON reader. -/
def headIs (s : Str) (c : Char) : Bool :=
  match s with
  | [] => false
  | d :: _ => d = c

/-- Reverse one escape character of a JSON string literal. -/
def unescChar (c : Char) : Char :=
  if c = 'n' then '\n'
  else if c = 't' then '\t'
  else if c = 'r' then '\r'
  else if c = 'b' then '\x08'
  else if c = 'f' then '\x0c'
  else c

mutual

/-- Parse the body of a JSON string literal after the opening quote, returning
the decoded string and the remaining input after the closing quote. -/
def parseStrBody : Str → Option (Str × Str)
  | [] => none
  | c :: rest =>
    if c = '"' then some ([], rest)
    else if c = '\\' then parseStrEsc rest
    else
      match parseStrBody rest with
      | none => none
      | some (t, r) => some (c :: t, r)

/-- Parse the remainder of a string literal directly after a backslash. -/
def parseStrEsc : Str → Option (Str × Str)
  | [] => none
  | e :: rest2 =>
    match parseStrBody rest2 with
    | none => none
    | some (t, r) => some (unescChar e :: t, r)

end

mutual

/-- Fuel-indexed recursive-descent JSON value parser (model of `json.loads`,
restricted to the string/array/object fragment the policy code uses). -/
def parseVal : Nat → Str → Option (JVal × Str)
  | 0, _ => none
  | fuel + 1, s =>
    match skipWs s with
    | [] => none
    | c :: rest =>
      if c = '"' then
        match parseStrBody rest with
        | none => none
        | some (t, r) => some (JVal.str t, r)
      else if c = '[' then
        if headIs (skipWs rest) ']' then some (JVal.arr [], (skipWs rest).tail)
        else
          match parseElems fuel rest with
          | none => none
          | some (xs, r) => some (JVal.arr xs, r)
      else if c = '\x7b' then
        if headIs (skipWs rest) '\x7d' then some (JVal.obj [], (skipWs rest).tail)
        else
          match parseMembers fuel rest with
          | none => none
          | some (fs, r) => some (JVal.obj fs, r)
      else none

/-- Parse one or more comma-separated array items up to the closing bracket. -/
def parseElems : Nat → Str → Option (List JVal × Str)
  | 0, _ => none
  | fuel + 1, s =>
    match parseVal fuel s with
    | none => none
    | some (x, r) =>
      match skipWs r with
      | [] => none
      | c :: r2 =>
        if c = ',' then
          match parseElems fuel r2 with
          | none => none
          | some (xs, r3) => some (x :: xs, r3)
        else if c = ']' then some ([x], r2)
        else none

/-- Parse one or more comma-separated object members up to the closing brace. -/
def parseMembers : Nat → Str → Option (List (Str × JVal) × Str)
  | 0, _ => none
  | fuel + 1, s =>
    match skipWs s with
    | [] => none
    | c :: rest =>
      if c = '"' then
        match parseStrBody rest with
        | none => none
        | some (k, r) =>
          match skipWs r with
          | [] => none
          | c2 :: r2 =>
            if c2 = ':' then
              match parseVal fuel r2 with
              | none => none
              | some (v, r3) =>
                match skipWs r3 with
                | [] => none
                | c3 :: r4 =>
                  if c3 = ',' then
                    match parseMembers fuel r4 with
                    | none => none
                    | some (fs, r5) => some ((k, v) :: fs, r5)
                  else if c3 = '\x7d' then some ([(k, v)], r4)
                  else none
            else none
      else none

end

/-- Model of `json.loads`: parse a complete JSON document, allowing trailing
whitespace only. -/
def json_loads (s : Str) : Option JVal :=
  match parseVal (s.length + 1) s with
  | none => none
  | some (j, rest) => if skipWs rest = [] then some j else none

mutual

/-- Node-count measure of a JSON value, used as a fuel bound for the parser. -/
def jsize : JVal → Nat
  | .str _ => 1
  | .arr xs => 1 + lsize xs
  | .obj fs => 1 + msize fs
termination_by j => sizeOf j
decreasing_by all_goals (simp_wf; try omega)

/-- Node-count measure of an array-item list. -/
def lsize : List JVal → Nat
  | [] => 0
  | x :: xs => 1 + jsize x + lsize xs
termination_by xs => sizeOf xs
decreasing_by all_goals (simp_wf; try omega)

/-- Node-count measure of an object-member list. -/
def msize : List (Str × JVal) → Nat
  | [] => 0
  | (_, v) :: fs => 1 + jsize v + msize fs
termination_by fs => sizeOf fs
decreasing_by all_goals (simp_wf; try omega)

end

theorem jsize_pos (j : JVal) : 1 ≤ jsize j := by
  cases j <;> simp [jsize]

theorem skipWs_cons_ws (c : Char) (h : isWs c = true) (s : Str) :
    skipWs (c :: s) = skipWs s := by
  simp [skipWs, h]

theorem skipWs_cons_not (c : Char) (h : isWs c = false) (s : Str) :
    skipWs (c :: s) = c :: s := by
  simp [skipWs, h]

theorem skipWs_padSp (n : Nat) (s : Str) : skipWs (padSp n ++ s) = skipWs s := by
  induction n with
  | zero => simp [padSp]
  | succ m ih =>
    have hsp : isWs ' ' = true := by decide
    simpa [padSp, List.replicate_succ, skipWs_cons_ws ' ' hsp] using ih

theorem ppVal_head (ind : Nat) (j : JVal) :
    ∃ c t, ppVal ind j = c :: t ∧ isWs c = false ∧
      (c = '"' ∨ c = '[' ∨ c = '\x7b') := by
  cases j with
  | str s => exact ⟨'"', escStr s ++ ['"'], by simp [ppVal, jquote], by decide, Or.inl rfl⟩
  | arr xs =>
    cases xs with
    | nil => exact ⟨'[', [']'], by simp [ppVal], by decide, Or.inr (Or.inl rfl)⟩
    | cons x tl =>
      exact ⟨'[', ppItems (ind + 4) x tl ++ '\n' :: padSp ind ++ [']'],
        by simp [ppVal], by decide, Or.inr (Or.inl rfl)⟩
  | obj fs =>
    cases fs with
    | nil => exact ⟨'\x7b', ['\x7d'], by simp [ppVal], by decide, Or.inr (Or.inr rfl)⟩
    | cons f tl =>
      exact ⟨'\x7b', ppMembers (ind + 4) f.1 f.2 tl ++ '\n' :: padSp ind ++ ['\x7d'],
        by cases f; simp [ppVal], by decide, Or.inr (Or.inr rfl)⟩

theorem skipWs_ppVal (ind : Nat) (j : JVal) (rest : Str) :
    skipWs (ppVal ind j ++ rest) = ppVal ind j ++ rest := by
  obtain ⟨c, t, heq, hws, _⟩ := ppVal_head ind j
  rw [heq, List.cons_append, skipWs_cons_not c hws]

theorem skipWs_item (n : Nat) (ind : Nat) (j : JVal) (t : Str) :
    skipWs ('\n' :: (padSp n ++ (ppVal ind j ++ t))) = ppVal ind j ++ t := by
  have hnl : isWs '\n' = true := by decide
  rw [skipWs_cons_ws '\n' hnl, skipWs_padSp, skipWs_ppVal]

theorem parseStrBody_escStr (s : Str) (rest : Str) :
    parseStrBody (escStr s ++ '"' :: rest) = some (s, rest) := by
  induction s with
  | nil => simp [escStr, parseStrBody]
  | cons c cs ih =>
    by_cases hc : c = '"' ∨ c = '\\'
    · have hesc : escChar c = ['\\', c] := by simp [escChar, hc]
      rcases hc with hc | hc <;>
        simp [escStr, hesc, parseStrBody, parseStrEsc, unescChar, hc, ih]
    · push_neg at hc
      have hesc : escChar c = [c] := by
        simp [escChar, hc.1, hc.2]
      simp [escStr, hesc, parseStrBody, hc.1, hc.2, ih]

theorem skipWs_nlPad (n : Nat) (c : Char) (t : Str) (h : isWs c = false) :
    skipWs ('\n' :: (padSp n ++ (c :: t))) = c :: t := by
  rw [skipWs_cons_ws '\n' (by decide), skipWs_padSp, skipWs_cons_not c h]

theorem headIs_ppVal (ind : Nat) (j : JVal) (t : Str) (c' : Char)
    (h1 : c' ≠ '"') (h2 : c' ≠ '[') (h3 : c' ≠ '\x7b') :
    headIs (ppVal ind j ++ t) c' = false := by
  obtain ⟨c, u, heq, _, hc⟩ := ppVal_head ind j
  rw [heq, List.cons_append]
  rcases hc with rfl | rfl | rfl <;> simp [headIs, Ne.symm h1, Ne.symm h2, Ne.symm h3]

theorem headIs_skipWs_ppItems (ind : Nat) (x : JVal) (xs : List JVal) (t : Str)
    (c' : Char) (h1 : c' ≠ '"') (h2 : c' ≠ '[') (h3 : c' ≠ '\x7b') :
    headIs (skipWs (ppItems ind x xs ++ t)) c' = false := by
  cases xs with
  | nil =>
    rw [ppItems]
    simp only [List.cons_append, List.append_assoc]
    rw [skipWs_item]
    exact headIs_ppVal ind x t c' h1 h2 h3
  | cons y ys =>
    rw [ppItems]
    simp only [List.cons_append, List.append_assoc]
    rw [skipWs_item]
    exact headIs_ppVal ind x _ c' h1 h2 h3

theorem headIs_skipWs_ppMembers (ind : Nat) (k : Str) (v : JVal)
    (fs : List (Str × JVal)) (t : Str) (c' : Char) (h1 : c' ≠ '"') :
    headIs (skipWs (ppMembers ind k v fs ++ t)) c' = false := by
  cases fs with
  | nil =>
    rw [ppMembers]
    simp only [jquote, List.cons_append, List.append_assoc, List.singleton_append]
    rw [skipWs_nlPad _ _ _ (by decide)]
    simp [headIs, Ne.symm h1]
  | cons g gs =>
    obtain ⟨k2, v2⟩ := g
    rw [ppMembers]
    simp only [jquote, List.cons_append, List.append_assoc, List.singleton_append]
    rw [skipWs_nlPad _ _ _ (by decide)]
    simp [headIs, Ne.symm h1]

theorem parse_pp (fuel : Nat) :
    (∀ j ind rest s, jsize j ≤ fuel → skipWs s = ppVal ind j ++ rest →
      parseVal fuel s = some (j, rest)) ∧
    (∀ x xs ind ind2 rest, lsize (x :: xs) ≤ fuel →
      parseElems fuel (ppItems ind x xs ++ '\n' :: padSp ind2 ++ ']' :: rest) =
        some (x :: xs, rest)) ∧
    (∀ k v fs ind ind2 rest, msize ((k, v) :: fs) ≤ fuel →
      parseMembers fuel
          (ppMembers ind k v fs ++ '\n' :: padSp ind2 ++ '\x7d' :: rest) =
        some ((k, v) :: fs, rest)) := by
  induction fuel with
  | zero =>
    refine ⟨?_, ?_, ?_⟩
    · intro j ind rest s hfuel _
      have := jsize_pos j; omega
    · intro x xs ind ind2 rest hfuel
      simp only [lsize] at hfuel
      have := jsize_pos x; omega
    · intro k v fs ind ind2 rest hfuel
      simp only [msize] at hfuel
      have := jsize_pos v; omega
  | succ f ih =>
    obtain ⟨ihv, ihi, ihm⟩ := ih
    refine ⟨?_, ?_, ?_⟩
    · intro j ind rest s hfuel hs
      cases j with
      | str t =>
        rw [ppVal] at hs
        simp only [parseVal]
        rw [hs]
        simp [jquote, List.append_assoc, parseStrBody_escStr]
      | arr xs =>
        cases xs with
        | nil =>
          rw [ppVal] at hs
          simp only [parseVal]
          rw [hs]
          have h1 : skipWs (']' :: rest) = ']' :: rest :=
            skipWs_cons_not ']' (by decide) rest
          simp [headIs, h1]
        | cons x tl =>
          rw [ppVal] at hs
          have hfx : lsize (x :: tl) ≤ f := by
            simp only [jsize] at hfuel; omega
          have hitems := ihi x tl (ind + 4) ind rest hfx
          simp only [List.cons_append, List.append_assoc] at hitems
          have hhead := headIs_skipWs_ppItems (ind + 4) x tl
            ('\n' :: (padSp ind ++ (']' :: rest))) ']'
            (by decide) (by decide) (by decide)
          simp only [parseVal]
          rw [hs]
          simp only [List.cons_append, List.append_assoc, List.singleton_append]
          simp [hhead, hitems]
      | obj fs =>
        cases fs with
        | nil =>
          rw [ppVal] at hs
          simp only [parseVal]
          rw [hs]
          have h1 : skipWs ('\x7d' :: rest) = '\x7d' :: rest :=
            skipWs_cons_not '\x7d' (by decide) rest
          simp [headIs, h1]
        | cons g gs =>
          obtain ⟨k, v⟩ := g
          rw [ppVal] at hs
          have hfx : msize ((k, v) :: gs) ≤ f := by
            simp only [jsize] at hfuel; omega
          have hmem := ihm k v gs (ind + 4) ind rest hfx
          simp only [List.cons_append, List.append_assoc] at hmem
          have hhead := headIs_skipWs_ppMembers (ind + 4) k v gs
            ('\n' :: (padSp ind ++ ('\x7d' :: rest))) '\x7d' (by decide)
          simp only [parseVal]
          rw [hs]
          simp only [List.cons_append, List.append_assoc, List.singleton_append]
          simp [hhead, hmem]
    · intro x xs ind ind2 rest hfuel
      have hx : jsize x ≤ f := by simp only [lsize] at hfuel; omega
      cases xs with
      | nil =>
        rw [ppItems]
        simp only [parseElems, List.cons_append, List.append_assoc]
        have hval := ihv x ind ('\n' :: (padSp ind2 ++ (']' :: rest)))
          ('\n' :: (padSp ind ++ (ppVal ind x ++
            ('\n' :: (padSp ind2 ++ (']' :: rest)))))) hx
          (skipWs_item ind ind x ('\n' :: (padSp ind2 ++ (']' :: rest))))
        rw [hval]
        simp [skipWs_nlPad ind2 ']' rest (by decide)]
      | cons y ys =>
        rw [ppItems]
        simp only [parseElems, List.cons_append, List.append_assoc]
        have hrec := ihi y ys ind ind2 rest
          (by simp only [lsize] at hfuel ⊢; have := jsize_pos x; omega)
        simp only [List.cons_append, List.append_assoc] at hrec
        have hval := ihv x ind
          (',' :: (ppItems ind y ys ++ ('\n' :: (padSp ind2 ++ (']' :: rest)))))
          ('\n' :: (padSp ind ++ (ppVal ind x ++
            (',' :: (ppItems ind y ys ++ ('\n' :: (padSp ind2 ++ (']' :: rest))))))))
          hx (skipWs_item ind ind x _)
        rw [hval]
        simp [skipWs_cons_not ',' (by decide), hrec]
    · intro k v fs ind ind2 rest hfuel
      have hv : jsize v ≤ f := by simp only [msize] at hfuel; omega
      cases fs with
      | nil =>
        rw [ppMembers]
        simp only [parseMembers, jquote, List.cons_append, List.append_assoc,
          List.singleton_append]
        rw [skipWs_nlPad _ _ _ (by decide)]
        have hval := ihv v ind ('\n' :: (padSp ind2 ++ ('\x7d' :: rest)))
          (' ' :: (ppVal ind v ++ ('\n' :: (padSp ind2 ++ ('\x7d' :: rest))))) hv
          (by rw [skipWs_cons_ws ' ' (by decide), skipWs_ppVal])
        have hcolon := skipWs_cons_not ':' (by decide)
          (' ' :: (ppVal ind v ++ ('\n' :: (padSp ind2 ++ ('\x7d' :: rest)))))
        simp [parseStrBody_escStr, hcolon, hval,
          skipWs_nlPad ind2 '\x7d' rest (by decide)]
      | cons g gs =>
        obtain ⟨k2, v2⟩ := g
        rw [ppMembers]
        simp only [parseMembers, jquote, List.cons_append, List.append_assoc,
          List.singleton_append]
        rw [skipWs_nlPad _ _ _ (by decide)]
        have hrec := ihm k2 v2 gs ind ind2 rest
          (by simp only [msize] at hfuel ⊢; have := jsize_pos v; omega)
        simp only [List.cons_append, List.append_assoc] at hrec
        have hval := ihv v ind
          (',' :: (ppMembers ind k2 v2 gs ++
            ('\n' :: (padSp ind2 ++ ('\x7d' :: rest)))))
          (' ' :: (ppVal ind v ++
            (',' :: (ppMembers ind k2 v2 gs ++
              ('\n' :: (padSp ind2 ++ ('\x7d' :: rest))))))) hv
          (by rw [skipWs_cons_ws ' ' (by decide), skipWs_ppVal])
        have hcolon := skipWs_cons_not ':' (by decide)
          (' ' :: (ppVal ind v ++
            (',' :: (ppMembers ind k2 v2 gs ++
              ('\n' :: (padSp ind2 ++ ('\x7d' :: rest)))))))
        simp [parseStrBody_escStr, hcolon, hval,
          skipWs_cons_not ',' (by decide), hrec]

theorem lenBound (n : Nat) :
    (∀ j ind, jsize j ≤ n → jsize j ≤ (ppVal ind j).length) ∧
    (∀ x xs ind, lsize (x :: xs) ≤ n → lsize (x :: xs) ≤ (ppItems ind x xs).length) ∧
    (∀ k v fs ind, msize ((k, v) :: fs) ≤ n →
      msize ((k, v) :: fs) ≤ (ppMembers ind k v fs).length) := by
  induction n with
  | zero =>
    refine ⟨?_, ?_, ?_⟩
    · intro j ind h; have := jsize_pos j; omega
    · intro x xs ind h; simp only [lsize] at h; have := jsize_pos x; omega
    · intro k v fs ind h; simp only [msize] at h; have := jsize_pos v; omega
  | succ n ih =>
    obtain ⟨ihv, ihi, ihm⟩ := ih
    refine ⟨?_, ?_, ?_⟩
    · intro j ind h
      cases j with
      | str t => simp [jsize, ppVal, jquote]
      | arr xs =>
        cases xs with
        | nil => simp [jsize, lsize, ppVal]
        | cons x tl =>
          have h1 : lsize (x :: tl) ≤ n := by simp only [jsize] at h; omega
          have h2 := ihi x tl (ind + 4) h1
          simp only [jsize, ppVal, List.length_append, List.length_cons]
          omega
      | obj fs =>
        cases fs with
        | nil => simp [jsize, msize, ppVal]
        | cons g gs =>
          obtain ⟨k, v⟩ := g
          have h1 : msize ((k, v) :: gs) ≤ n := by simp only [jsize] at h; omega
          have h2 := ihm k v gs (ind + 4) h1
          simp only [jsize, ppVal, List.length_append, List.length_cons]
          omega
    · intro x xs ind h
      cases xs with
      | nil =>
        have h1 : jsize x ≤ n := by simp only [lsize] at h; omega
        have h2 := ihv x ind h1
        simp only [lsize, ppItems, List.length_append, List.length_cons]
        omega
      | cons y ys =>
        have h1 : jsize x ≤ n := by
          simp only [lsize] at h; omega
        have h2 : lsize (y :: ys) ≤ n := by
          simp only [lsize] at h ⊢; have := jsize_pos x; omega
        have h3 := ihv x ind h1
        have h4 := ihi y ys ind h2
        simp only [lsize, ppItems, List.length_append, List.length_cons] at h3 h4 ⊢
        omega
    · intro k v fs ind h
      cases fs with
      | nil =>
        have h1 : jsize v ≤ n := by simp only [msize] at h; omega
        have h2 := ihv v ind h1
        simp only [msize, ppMembers, List.length_append, List.length_cons]
        omega
      | cons g gs =>
        obtain ⟨k2, v2⟩ := g
        have h1 : jsize v ≤ n := by simp only [msize] at h; omega
        have h2 : msize ((k2, v2) :: gs) ≤ n := by
          simp only [msize] at h ⊢; have := jsize_pos v; omega
        have h3 := ihv v ind h1
        have h4 := ihm k2 v2 gs ind h2
        simp only [msize, ppMembers, List.length_append, List.length_cons] at h3 h4 ⊢
        omega

theorem jsize_le_len (j : JVal) (ind : Nat) : jsize j ≤ (ppVal ind j).length :=
  (lenBound (jsize j)).1 j ind le_rfl

/-- The JSON reader inverts the JSON writer: parsing a dumped value returns
exactly that value. -/
theorem json_loads_dumps (j : JVal) : json_loads (json_dumps j) = some j := by
  have hr : skipWs (ppVal 0 j) = ppVal 0 j ++ [] := by
    have h0 := skipWs_ppVal 0 j []
    rw [List.append_nil] at h0 ⊢
    exact h0
  have h := (parse_pp ((ppVal 0 j).length + 1)).1 j 0 [] (ppVal 0 j)
    (by have := jsize_le_len j 0; omega) hr
  unfold json_loads json_dumps
  rw [h]
  simp [skipWs]

/-- Lookup in a Python dict modelled as an insertion-ordered association list
(`dict.get(key)` / `key in dict`). -/
def dictFind : List (Str × JVal) → Str → Option JVal
  | [], _ => none
  | (k, v) :: rest, key => if k = key then some v else dictFind rest key

/-- Assignment `d[key] = v` on a Python dict: replace in place when the key
exists, append a new entry otherwise. -/
def dictSet : List (Str × JVal) → Str → JVal → List (Str × JVal)
  | [], key, v => [(key, v)]
  | (k, w) :: rest, key, v =>
    if k = key then (k, v) :: rest else (k, w) :: dictSet rest key v

/-- Python `s.startswith(pre)`; the empty prefix matches anything. -/
def startsWithPre : Str → Str → Bool
  | [], _ => true
  | _ :: _, [] => false
  | p :: ps, c :: cs => (p = c) && startsWithPre ps cs

/-- Python `sub in s` on strings. -/
def containsSub : Str → Str → Bool
  | [], pat => startsWithPre pat []
  | c :: t, pat => startsWithPre pat (c :: t) || containsSub t pat

/-- Python `s.lower()`. -/
def lower (s : Str) : Str := s.map Char.toLower

/-- Version constant `BucketPolicy.DEFAULT_VERSION`. -/
def DEFAULT_VERSION : Str := str "2012-10-17"

/-- Prefix constant `BucketPolicy.ACTION_PREFIX`. -/
def ACTION_PREFIX : Str := str "s3:"

/-- Prefix constant `BucketPolicy.RESOURCE_PREFIX`. -/
def RESOURCE_PREFIX : Str := str "arn:aws:s3:::"

/-- In-memory S3 bucket policy: a version string and the ordered list of
statement dicts, following the `BucketPolicy` class of
`framework/bucket_policies/bucket_policy.py` and `noobaa_sa/bucket_policy.py`. -/
structure BucketPolicy where
  version : Str
  statements : List JVal

/-- Freshly constructed policy (`BucketPolicy.__init__`). -/
def BucketPolicy.init : BucketPolicy :=
  { version := DEFAULT_VERSION, statements := [] }

/-- Model of `BucketPolicy.as_dict`. -/
def BucketPolicy.as_dict (p : BucketPolicy) : JVal :=
  .obj [(str "Version", .str p.version), (str "Statement", .arr p.statements)]

/-- Model of `BucketPolicy.__str__`: `json.dumps(self.as_dict(), indent=4)`. -/
def BucketPolicy.toStr (p : BucketPolicy) : Str := json_dumps p.as_dict

/-- Model of `BucketPolicy.from_json` from
`framework/bucket_policies/bucket_policy.py`: `json.loads` the text, then read
`Version` (defaulting to `DEFAULT_VERSION`) and `Statement` (defaulting to the
empty list).  A document that is not a JSON object (where the Python `.get`
would raise) or whose `Version`/`Statement` entries are not a string/array
(shapes the `Str`/`List` fields of the model cannot hold; they never arise for
serialized policies) is mapped to `none`. -/
def BucketPolicy.from_json (s : Str) : Option BucketPolicy :=
  match json_loads s with
  | none => none
  | some (.obj fields) =>
    let version := match dictFind fields (str "Version") with
      | some v => v
      | none => .str DEFAULT_VERSION
    let stmts := match dictFind fields (str "Statement") with
      | some v => v
      | none => .arr []
    match version, stmts with
    | .str vs, .arr l => some { version := vs, statements := l }
    | _, _ => none
  | some _ => none

/-- Builder errors (`raise ValueError(...)`), plus a marker for dict/list shape
violations that the Python code would surface as `AttributeError` (unreachable
through the builder API). -/
inductive PyErr where
  | valueError (msg : Str)
  | typeError
deriving DecidableEq

namespace Framework

/-- Model of `BucketPolicyBuilder.add_allow_statement` from
`framework/bucket_policies/bucket_policy.py`. -/
def add_allow_statement (p : BucketPolicy) : BucketPolicy :=
  { p with statements :=
      p.statements ++ [JVal.obj [(str "Effect", .str (str "Allow"))]] }

/-- Model of `BucketPolicyBuilder.add_deny_statement`. -/
def add_deny_statement (p : BucketPolicy) : BucketPolicy :=
  { p with statements :=
      p.statements ++ [JVal.obj [(str "Effect", .str (str "Deny"))]] }

/-- Model of `BucketPolicyBuilder._assure_prefix` (framework variant): prefix
`s3:` when "action" occurs in the lowercased property name, `arn:aws:s3:::`
when "resource" does, unless the value already starts with that prefix. -/
def assurePrefix (property value : Str) : Str :=
  let pre :=
    if containsSub (lower property) (str "action") then ACTION_PREFIX
    else if containsSub (lower property) (str "resource") then RESOURCE_PREFIX
    else []
  if startsWithPre pre value then value else pre ++ value

/-- Python `d.setdefault(key, []).append(value)` on a statement dict. -/
def setdefaultAppend (d : List (Str × JVal)) (key : Str) (value : Str) :
    Except PyErr (List (Str × JVal)) :=
  match dictFind d key with
  | none => .ok (d ++ [(key, .arr [.str value])])
  | some (.arr xs) => .ok (dictSet d key (.arr (xs ++ [.str value])))
  | some _ => .error .typeError

/-- Model of `BucketPolicyBuilder._update_property_on_last_statement`
(framework variant): raise `ValueError` when there is no statement, prefix the
value, nest `Principal`/`NotPrincipal` values under the `AWS` key of the
property dict, and append to the (created on demand) list. -/
def updatePropertyOnLastStatement (p : BucketPolicy) (property value : Str) :
    Except PyErr BucketPolicy := do
  match p.statements.getLast? with
  | none => .error (.valueError (str "No statement to update"))
  | some lastStmt =>
    let value := assurePrefix property value
    match lastStmt with
    | .obj lastFields =>
      if containsSub (lower property) (str "principal") then
        let nested := match dictFind lastFields property with
          | some j => j
          | none => .obj []
        match nested with
        | .obj nf =>
          let nf2 ← setdefaultAppend nf (str "AWS") value
          .ok { p with statements :=
            p.statements.dropLast ++ [.obj (dictSet lastFields property (.obj nf2))] }
        | _ => .error .typeError
      else
        let lf2 ← setdefaultAppend lastFields property value
        .ok { p with statements := p.statements.dropLast ++ [.obj lf2] }
    | _ => .error .typeError

/-- Model of `BucketPolicyBuilder.add_principal`. -/
def add_principal (p : BucketPolicy) (principal : Str) : Except PyErr BucketPolicy :=
  updatePropertyOnLastStatement p (str "Principal") principal

/-- Model of `BucketPolicyBuilder.add_not_principal`. -/
def add_not_principal (p : BucketPolicy) (notPrincipal : Str) :
    Except PyErr BucketPolicy :=
  updatePropertyOnLastStatement p (str "NotPrincipal") notPrincipal

/-- Model of `BucketPolicyBuilder.add_action`. -/
def add_action (p : BucketPolicy) (action : Str) : Except PyErr BucketPolicy :=
  updatePropertyOnLastStatement p (str "Action") action

/-- Model of `BucketPolicyBuilder.add_not_action`. -/
def add_not_action (p : BucketPolicy) (notAction : Str) : Except PyErr BucketPolicy :=
  updatePropertyOnLastStatement p (str "NotAction") notAction

/-- Model of `BucketPolicyBuilder.add_resource`. -/
def add_resource (p : BucketPolicy) (resource : Str) : Except PyErr BucketPolicy :=
  updatePropertyOnLastStatement p (str "Resource") resource

/-- Model of `BucketPolicyBuilder.add_not_resource`. -/
def add_not_resource (p : BucketPolicy) (notResource : Str) :
    Except PyErr BucketPolicy :=
  updatePropertyOnLastStatement p (str "NotResource") notResource

/-- Model of `BucketPolicy.default_template` (framework variant). -/
def default_template : Except PyErr BucketPolicy := do
  let p := add_deny_statement BucketPolicy.init
  let p ← add_principal p (str "*")
  let p ← add_action p (str "GetObject")
  let p ← add_resource p (str "*")
  .ok p

/-- The overlap dictionary literal of `BucketPolicy.get_ops_with_perm_overlap`
(value of `overlap_map.get(operation, [])`). -/
def overlapMapGet (operation : Str) : List Str :=
  if operation = str "HeadObject" then [str "GetObject"]
  else if operation = str "GetObject" then [str "HeadObject", str "CopyObject"]
  else if operation = str "CopyObject" then [str "GetObject", str "PutObject"]
  else if operation = str "PutObject" then [str "CopyObject"]
  else []

/-- Model of `BucketPolicy.get_ops_with_perm_overlap`: the mapped overlap list
with the operation itself appended. -/
def get_ops_with_perm_overlap (operation : Str) : List Str :=
  overlapMapGet operation ++ [operation]

end Framework

namespace NoobaaSA

/-- Model of `BucketPolicyBuilder._assure_prefix` from
`noobaa_sa/bucket_policy.py`: the property name is compared exactly against
`"Action"` and `"Resource"` (so `NotAction`/`NotResource` values get no
prefix). -/
def assurePrefix (property value : Str) : Str :=
  let pre :=
    if property = str "Action" then ACTION_PREFIX
    else if property = str "Resource" then RESOURCE_PREFIX
    else []
  if startsWithPre pre value then value else pre ++ value

/-- The scalar-promoting dict update of the noobaa_sa builder:
absent key stores the bare value, a list appends, any other stored value is
promoted to a two-element list. -/
def scalarPromote (d : List (Str × JVal)) (key : Str) (value : Str) :
    List (Str × JVal) :=
  match dictFind d key with
  | none => d ++ [(key, .str value)]
  | some (.arr xs) => dictSet d key (.arr (xs ++ [.str value]))
  | some old => dictSet d key (.arr [old, .str value])

/-- Model of `BucketPolicyBuilder._update_property_on_last_statement` from
`noobaa_sa/bucket_policy.py`: `ValueError` when no statement exists, prefix
the value, nest principal-like properties under `Principal`/`AWS`, then do the
scalar-promoting assignment. -/
def updatePropertyOnLastStatement (p : BucketPolicy) (property value : Str) :
    Except PyErr BucketPolicy :=
  match p.statements.getLast? with
  | none => .error (.valueError (str "No statement to update"))
  | some lastStmt =>
    let value := assurePrefix property value
    match lastStmt with
    | .obj lastFields =>
      if containsSub (lower property) (str "principal") then
        let nested := match dictFind lastFields (str "Principal") with
          | some j => j
          | none => .obj []
        match nested with
        | .obj nf =>
          .ok { p with statements := p.statements.dropLast ++
            [.obj (dictSet lastFields (str "Principal")
              (.obj (scalarPromote nf (str "AWS") value)))] }
        | _ => .error .typeError
      else
        .ok { p with statements := p.statements.dropLast ++
          [.obj (scalarPromote lastFields property value)] }
    | _ => .error .typeError

/-- Model of `BucketPolicyBuilder.add_allow_statement` (noobaa_sa variant). -/
def add_allow_statement (p : BucketPolicy) : BucketPolicy :=
  { p with statements :=
      p.statements ++ [JVal.obj [(str "Effect", .str (str "Allow"))]] }

/-- Model of `BucketPolicyBuilder.add_deny_statement` (noobaa_sa variant). -/
def add_deny_statement (p : BucketPolicy) : BucketPolicy :=
  { p with statements :=
      p.statements ++ [JVal.obj [(str "Effect", .str (str "Deny"))]] }

/-- Model of `BucketPolicyBuilder.for_principal`. -/
def for_principal (p : BucketPolicy) (principal : Str) : Except PyErr BucketPolicy :=
  updatePropertyOnLastStatement p (str "Principal") principal

/-- Model of `BucketPolicyBuilder.not_for_principal`. -/
def not_for_principal (p : BucketPolicy) (notPrincipal : Str) :
    Except PyErr BucketPolicy :=
  updatePropertyOnLastStatement p (str "NotPrincipal") notPrincipal

/-- Model of `BucketPolicyBuilder.on_action`. -/
def on_action (p : BucketPolicy) (action : Str) : Except PyErr BucketPolicy :=
  updatePropertyOnLastStatement p (str "Action") action

/-- Model of `BucketPolicyBuilder.not_for_action`. -/
def not_for_action (p : BucketPolicy) (notAction : Str) : Except PyErr BucketPolicy :=
  updatePropertyOnLastStatement p (str "NotAction") notAction

/-- Model of `BucketPolicyBuilder.with_resource`. -/
def with_resource (p : BucketPolicy) (resource : Str) : Except PyErr BucketPolicy :=
  updatePropertyOnLastStatement p (str "Resource") resource

/-- Model of `BucketPolicyBuilder.not_on_resource`. -/
def not_on_resource (p : BucketPolicy) (notResource : Str) :
    Except PyErr BucketPolicy :=
  updatePropertyOnLastStatement p (str "NotResource") notResource

end NoobaaSA

theorem startsWithPre_self_append (l t : Str) : startsWithPre l (l ++ t) = true := by
  induction l with
  | nil => rfl
  | cons c cs ih => simp [startsWithPre, ih]

/-- Shared helper: `from_json` inverts `__str__` on every policy value. -/
theorem from_json_toStr (p : BucketPolicy) :
    BucketPolicy.from_json (BucketPolicy.toStr p) = some p := by
  unfold BucketPolicy.toStr BucketPolicy.from_json
  rw [json_loads_dumps]
  have h1 : (str "Version" = str "Version") = True := by simp
  have h2 : (str "Version" = str "Statement") = False := by
    simp only [eq_iff_iff, iff_false]
    decide
  simp [BucketPolicy.as_dict, dictFind, h1, h2]

/-- C9: Serialization round-trips: for every policy, `BucketPolicy.from_json`
applied to `str(policy)` recovers a policy with the same version string and the
same statement list, i.e. the policy itself. -/
theorem policy_serialization_roundtrip (p : BucketPolicy) :
    BucketPolicy.from_json (BucketPolicy.toStr p) = some p :=
  from_json_toStr p

/-- Read `Principal.AWS` off the last statement of a builder result. -/
def principalAWSOfLast (r : Except PyErr BucketPolicy) : Option JVal :=
  match r with
  | .error _ => none
  | .ok p =>
    match p.statements.getLast? with
    | some (.obj fs) =>
      match dictFind fs (str "Principal") with
      | some (.obj nf) => dictFind nf (str "AWS")
      | _ => none
    | _ => none

/-- Read an arbitrary field off the last statement of a builder result. -/
def lastFieldOf (r : Except PyErr BucketPolicy) (key : Str) : Option JVal :=
  match r with
  | .error _ => none
  | .ok p =>
    match p.statements.getLast? with
    | some (.obj fs) => dictFind fs key
    | _ => none

/-- C4 counterexample: in the framework builder (the variant that has the
`add_principal` method named by the claim), a single `add_principal("a")`
stores the one-element list `["a"]` under `Principal.AWS`, not the bare scalar
`"a"`. -/
theorem add_principal_single_is_list_not_scalar :
    principalAWSOfLast
        (Framework.add_principal (Framework.add_allow_statement BucketPolicy.init)
          (str "a")) =
      some (JVal.arr [.str (str "a")]) ∧
    JVal.arr [.str (str "a")] ≠ JVal.str (str "a") := by
  refine ⟨rfl, fun h => ?_⟩
  exact JVal.noConfusion h

/-- C4 amended: the noobaa_sa builder (`for_principal`) stores the bare scalar
on the first add and promotes it to the two-element list `[a, b]` in call order
on the second; the framework builder (`add_principal`) always stores a list,
`[a]` after one call and `[a, b]` after two. -/
theorem multi_value_fields (a b : Str) :
    principalAWSOfLast
        (NoobaaSA.for_principal (NoobaaSA.add_allow_statement BucketPolicy.init) a) =
      some (.str a) ∧
    principalAWSOfLast
        ((NoobaaSA.for_principal (NoobaaSA.add_allow_statement BucketPolicy.init)
          a).bind (fun p => NoobaaSA.for_principal p b)) =
      some (.arr [.str a, .str b]) ∧
    principalAWSOfLast
        (Framework.add_principal (Framework.add_allow_statement BucketPolicy.init)
          a) =
      some (.arr [.str a]) ∧
    principalAWSOfLast
        ((Framework.add_principal (Framework.add_allow_statement BucketPolicy.init)
          a).bind (fun p => Framework.add_principal p b)) =
      some (.arr [.str a, .str b]) := by
  refine ⟨?_, ?_, ?_, ?_⟩ <;> rfl

/-- Idempotence of the framework prefixing helper for any property name. -/
theorem framework_assurePrefix_idem (property a : Str) :
    Framework.assurePrefix property (Framework.assurePrefix property a) =
      Framework.assurePrefix property a := by
  unfold Framework.assurePrefix
  by_cases h : startsWithPre
      (if containsSub (lower property) (str "action") then ACTION_PREFIX
      else if containsSub (lower property) (str "resource") then RESOURCE_PREFIX
      else []) a = true
  · simp [h]
  · simp [h, startsWithPre_self_append]

/-- C5: `add_action`/`add_not_action` store the value `s3:`-prefixed unless it
already starts with `s3:`, `add_resource`/`add_not_resource` do the same with
`arn:aws:s3:::`, and the prefixing helper is idempotent on all four
properties (in particular `s3:GetObject` stays `s3:GetObject`). -/
theorem action_resource_prefixing (a r : Str) :
    lastFieldOf
        (Framework.add_action (Framework.add_allow_statement BucketPolicy.init) a)
        (str "Action") =
      some (.arr [.str (if startsWithPre ACTION_PREFIX a then a
        else ACTION_PREFIX ++ a)]) ∧
    lastFieldOf
        (Framework.add_not_action (Framework.add_allow_statement BucketPolicy.init)
          a) (str "NotAction") =
      some (.arr [.str (if startsWithPre ACTION_PREFIX a then a
        else ACTION_PREFIX ++ a)]) ∧
    lastFieldOf
        (Framework.add_resource (Framework.add_allow_statement BucketPolicy.init)
          r) (str "Resource") =
      some (.arr [.str (if startsWithPre RESOURCE_PREFIX r then r
        else RESOURCE_PREFIX ++ r)]) ∧
    lastFieldOf
        (Framework.add_not_resource
          (Framework.add_allow_statement BucketPolicy.init) r)
        (str "NotResource") =
      some (.arr [.str (if startsWithPre RESOURCE_PREFIX r then r
        else RESOURCE_PREFIX ++ r)]) ∧
    Framework.assurePrefix (str "Action")
        (Framework.assurePrefix (str "Action") a) =
      Framework.assurePrefix (str "Action") a ∧
    Framework.assurePrefix (str "NotAction")
        (Framework.assurePrefix (str "NotAction") a) =
      Framework.assurePrefix (str "NotAction") a ∧
    Framework.assurePrefix (str "Resource")
        (Framework.assurePrefix (str "Resource") r) =
      Framework.assurePrefix (str "Resource") r ∧
    Framework.assurePrefix (str "NotResource")
        (Framework.assurePrefix (str "NotResource") r) =
      Framework.assurePrefix (str "NotResource") r ∧
    Framework.assurePrefix (str "Action") (str "s3:GetObject") =
      str "s3:GetObject" := by
  refine ⟨?_, ?_, ?_, ?_, framework_assurePrefix_idem _ a,
    framework_assurePrefix_idem _ a, framework_assurePrefix_idem _ r,
    framework_assurePrefix_idem _ r, by rfl⟩ <;> rfl

/-- Base list of operations probed by
`get_other_ops_for_permission_testing` in
`tests/bucket_policies/test_bucket_policies.py`. -/
def baseOtherOps : List Str :=
  [str "GetObject", str "PutObject", str "DeleteObject", str "CopyObject",
   str "PutBucketPolicy", str "ListBucket"]

/-- The local overlap dictionary of `get_other_ops_for_permission_testing`
(same literal as the one in `BucketPolicy.get_ops_with_perm_overlap`). -/
def testOverlapMapGet (operation : Str) : List Str :=
  if operation = str "HeadObject" then [str "GetObject"]
  else if operation = str "GetObject" then [str "HeadObject", str "CopyObject"]
  else if operation = str "CopyObject" then [str "GetObject", str "PutObject"]
  else if operation = str "PutObject" then [str "CopyObject"]
  else []

/-- Model of `get_other_ops_for_permission_testing`: drop the operation itself
and everything in its overlap list from the base operation list. -/
def get_other_ops_for_permission_testing (operation : Str) : List Str :=
  baseOtherOps.filter
    (fun op => decide (op ≠ operation) && !((testOverlapMapGet operation).contains op))

/-- C8: the overlap-exclusion helper removes the probed operation and its whole
permission-overlap set from the "should not be affected" list; in particular
for CopyObject both GetObject and PutObject are excluded, and
`get_ops_with_perm_overlap` always contains the operation itself. -/
theorem overlap_exclusion (operation : Str) :
    (∀ op ∈ get_other_ops_for_permission_testing operation,
      op ∉ Framework.get_ops_with_perm_overlap operation) ∧
    operation ∉ get_other_ops_for_permission_testing operation ∧
    str "GetObject" ∉ get_other_ops_for_permission_testing (str "CopyObject") ∧
    str "PutObject" ∉ get_other_ops_for_permission_testing (str "CopyObject") ∧
    operation ∈ Framework.get_ops_with_perm_overlap operation := by
  have hmaps : ∀ o, testOverlapMapGet o = Framework.overlapMapGet o := fun _ => rfl
  refine ⟨?_, ?_, by decide, by decide, ?_⟩
  · intro op hop
    rw [get_other_ops_for_permission_testing, List.mem_filter] at hop
    obtain ⟨-, hcond⟩ := hop
    replace hcond : op ≠ operation ∧ op ∉ testOverlapMapGet operation := by
      simpa using hcond
    rw [Framework.get_ops_with_perm_overlap, List.mem_append, List.mem_singleton]
    rintro (hmem | rfl)
    · exact hcond.2 (by rw [hmaps]; exact hmem)
    · exact hcond.1 rfl
  · intro hmem
    rw [get_other_ops_for_permission_testing, List.mem_filter] at hmem
    obtain ⟨-, hcond⟩ := hmem
    simp at hcond
  · rw [Framework.get_ops_with_perm_overlap, List.mem_append, List.mem_singleton]
    exact Or.inr rfl

/-- Witness for `overlap_exclusion`: DeleteObject is in HeadObject's
"other operations" list and indeed outside HeadObject's overlap set. -/
theorem overlap_exclusion_witness :
    str "DeleteObject" ∈ get_other_ops_for_permission_testing (str "HeadObject") ∧
    str "DeleteObject" ∉ Framework.get_ops_with_perm_overlap (str "HeadObject") :=
  ⟨by decide, (overlap_exclusion (str "HeadObject")).1 (str "DeleteObject")
    (by decide)⟩

/-- Helper of `utility/utils.py` `camel_to_snake`, carrying the enumerate
index: an underscore is inserted before each uppercase letter except at
index 0, and every character is lowercased. -/
def camelToSnakeAux : Nat → Str → Str
  | _, [] => []
  | i, c :: t =>
    (if c.isUpper ∧ i ≠ 0 then ['_'] else []) ++ c.toLower :: camelToSnakeAux (i + 1) t

/-- Model of `camel_to_snake` from `utility/utils.py` (ASCII case mapping). -/
def camel_to_snake (s : Str) : Str := camelToSnakeAux 0 s

/-- The modules of `framework/bucket_policies/access_validation_strategies/`
together with the strategy-class attribute names each module exposes (defined
or imported); attributes whose names do not end in `ValidationStrategy`
(helper imports such as `BucketPolicyBuilder` or
`generate_unique_resource_name`) are omitted, since the factory only ever
looks up `{operation}ValidationStrategy` names. -/
def strategyModules : List (Str × List Str) :=
  [(str "copy_object_validation_strategy",
    [str "CopyObjectValidationStrategy", str "AccessValidationStrategy"]),
   (str "delete_bucket_validation_strategy",
    [str "DeleteBucketValidationStrategy", str "AccessValidationStrategy"]),
   (str "get_bucket_policy_validation_strategy",
    [str "GetBucketPolicyValidationStrategy",
     str "PolicyOperationValidationStrategy"]),
   (str "head_object_validation_strategy",
    [str "HeadObjectValidationStrategy", str "AccessValidationStrategy"]),
   (str "list_bucket_validation_strategy",
    [str "ListBucketValidationStrategy", str "AccessValidationStrategy"]),
   (str "policy_operation_validation_strategy",
    [str "PolicyOperationValidationStrategy", str "AccessValidationStrategy"]),
   (str "put_bucket_policy_validation_strategy",
    [str "PutBucketPolicyValidationStrategy",
     str "PolicyOperationValidationStrategy"]),
   (str "put_object_validation_strategy",
    [str "PutObjectValidationStrategy", str "AccessValidationStrategy"]),
   (str "access_validation_strategy_interface",
    [str "AccessValidationStrategy"])]

/-- Module lookup (`importlib.import_module`, which raises `ImportError` for a
missing module, modelled by `none`). -/
def findStrategyModule : List (Str × List Str) → Str → Option (List Str)
  | [], _ => none
  | (m, cs) :: rest, name => if m = name then some cs else findStrategyModule rest name

/-- A constructed strategy instance: the class resolved by the factory applied
to the `(admin_client, bucket)` constructor arguments. -/
structure StrategyInstance (α β : Type) where
  className : Str
  admin_client : α
  bucket : β

/-- Error raised by the factory (`raise NotImplementedError(...)`). -/
inductive FactoryErr where
  | notImplementedError (msg : Str)

/-- Model of
`AccessValidationStrategyFactory.create_strategy_for_operation`: derive the
module name `camel_to_snake(operation) + "_validation_strategy"`, fail with
`NotImplementedError` naming the operation when no such module exists, then
look up the class `{operation}ValidationStrategy` in it, failing with
`NotImplementedError` naming the class when absent, and otherwise construct
the strategy with `(admin_client, bucket)`. -/
def create_strategy_for_operation (admin_client : α) (bucket : β)
    (operation : Str) : Except FactoryErr (StrategyInstance α β) :=
  let moduleName := camel_to_snake operation ++ str "_validation_strategy"
  match findStrategyModule strategyModules moduleName with
  | none => .error (.notImplementedError
      (str "No strategy module found for operation: " ++ operation))
  | some classes =>
    let className := operation ++ str "ValidationStrategy"
    if classes.contains className then
      .ok { className := className, admin_client := admin_client, bucket := bucket }
    else
      .error (.notImplementedError
        (str "Strategy class " ++ className ++ str " not found in " ++
          str "framework.bucket_policies.access_validation_strategies." ++
          moduleName))

theorem startsWithPre_append_right (x suf : Str) :
    startsWithPre x (x ++ suf) = true := startsWithPre_self_append x suf

theorem containsSub_append_mid (pre x suf : Str) :
    containsSub (pre ++ (x ++ suf)) x = true := by
  induction pre with
  | nil =>
    cases hx : x ++ suf with
    | nil =>
      have hxnil : x = [] := by
        cases x with
        | nil => rfl
        | cons c t => simp at hx
      subst hxnil
      rfl
    | cons c t =>
      rw [List.nil_append, containsSub, ← hx, startsWithPre_self_append]
      rfl
  | cons c t ih =>
    rw [List.cons_append, containsSub, ih, Bool.or_true]

/-- C6: for every operation name the factory either returns exactly the one
strategy instance whose class is `{operation}ValidationStrategy`, constructed
with `(admin_client, bucket)`, or fails with the unsupported-operation error
(`NotImplementedError`, the error the spec calls `NotSupportedOperation`)
whose message contains the operation name; no other outcome is possible. -/
theorem factory_resolution {α β : Type} (admin_client : α) (bucket : β)
    (operation : Str) :
    (∃ s, create_strategy_for_operation admin_client bucket operation = .ok s ∧
      s.className = operation ++ str "ValidationStrategy" ∧
      s.admin_client = admin_client ∧ s.bucket = bucket) ∨
    (∃ msg, create_strategy_for_operation admin_client bucket operation =
        .error (.notImplementedError msg) ∧ containsSub msg operation = true) := by
  cases hmod : findStrategyModule strategyModules
      (camel_to_snake operation ++ str "_validation_strategy") with
  | none =>
    refine Or.inr ⟨str "No strategy module found for operation: " ++ operation,
      ?_, ?_⟩
    · simp only [create_strategy_for_operation]
      rw [hmod]
    · simpa using
        containsSub_append_mid (str "No strategy module found for operation: ")
          operation []
  | some classes =>
    by_cases hcls : (operation ++ str "ValidationStrategy") ∈ classes
    · refine Or.inl ⟨⟨operation ++ str "ValidationStrategy", admin_client, bucket⟩,
        ?_, rfl, rfl, rfl⟩
      simp only [create_strategy_for_operation]
      rw [hmod]
      simp [hcls]
    · refine Or.inr ⟨str "Strategy class " ++
        ((operation ++ str "ValidationStrategy") ++ (str " not found in " ++
          (str "framework.bucket_policies.access_validation_strategies." ++
            (camel_to_snake operation ++ str "_validation_strategy")))), ?_, ?_⟩
      · simp only [create_strategy_for_operation]
        rw [hmod]
        simp [hcls]
      · simpa [List.append_assoc] using
          containsSub_append_mid (str "Strategy class ") operation
            (str "ValidationStrategy" ++ (str " not found in " ++
              (str "framework.bucket_policies.access_validation_strategies." ++
                (camel_to_snake operation ++ str "_validation_strategy"))))

/-- ASCII digit test (`str.isdigit` for the code strings at issue). -/
def isPyDigit (c : Char) : Bool := c.isDigit

/-- Numeric value of a digit string. -/
def digitsVal (s : Str) : Nat :=
  s.foldl (fun acc c => acc * 10 + (c.toNat - '0'.toNat)) 0

/-- Python `str.strip()` (over the whitespace characters of `isWs`). -/
def pyStrip (s : Str) : Str :=
  ((s.dropWhile isWs).reverse.dropWhile isWs).reverse

/-- Digit-run parse used by `pythonInt?`. -/
def parseDigits? (s : Str) : Option Nat :=
  if s ≠ [] ∧ s.all isPyDigit then some (digitsVal s) else none

/-- Model of Python `int(str)` restricted to optional surrounding whitespace,
an optional sign and a run of ASCII digits (digit-grouping underscores and
non-ASCII digits are not modelled; S3 code strings never contain them).
`none` models the `ValueError` that `_exec_boto3_method` catches and
ignores. -/
def pythonInt? (s : Str) : Option Int :=
  match pyStrip s with
  | [] => none
  | c :: t =>
    if c = '+' then (parseDigits? t).map (fun n => (n : Int))
    else if c = '-' then (parseDigits? t).map (fun n => -(n : Int))
    else (parseDigits? (c :: t)).map (fun n => (n : Int))

/-- The normalized `Code` value injected by `S3Client._exec_boto3_method`:
an int HTTP status or an S3 error-code string. -/
inductive CodeVal where
  | int (n : Int)
  | str (s : Str)
deriving DecidableEq

/-- Outcome of the underlying boto3 call: a success response carrying
`ResponseMetadata.HTTPStatusCode`, or a `ClientError` whose
`e.response["Error"]["Code"]` is an S3 error-code string. -/
inductive BotoOutcome where
  | success (httpStatusCode : Int)
  | clientError (errorCode : Str)

/-- The final `int(...)`/`except ValueError: pass` coercion of
`_exec_boto3_method`. -/
def coerceCode : CodeVal → CodeVal
  | .int n => .int n
  | .str s =>
    match pythonInt? s with
    | some n => .int n
    | none => .str s

/-- Model of `S3Client._exec_boto3_method` from `noobaa_sa/s3_client.py`,
restricted to the injected `Code` key: on success the HTTP status code from
the response metadata, on `ClientError` the error response's code string, in
both cases passed through the int coercion.  The function is total — the
`ClientError` is caught, never re-raised — and the remaining response-dict
fields pass through unmodified (not modelled). -/
def exec_boto3_method (o : BotoOutcome) : CodeVal :=
  match o with
  | .success status => coerceCode (.int status)
  | .clientError code => coerceCode (.str code)

theorem dropWhile_isWs_id (l : Str) (h : ∀ c ∈ l, isWs c = false) :
    l.dropWhile isWs = l := by
  cases l with
  | nil => rfl
  | cons c t =>
    rw [List.dropWhile_cons, h c (by simp)]
    simp

theorem pyStrip_of_no_ws (l : Str) (h : ∀ c ∈ l, isWs c = false) :
    pyStrip l = l := by
  unfold pyStrip
  rw [dropWhile_isWs_id l h,
    dropWhile_isWs_id l.reverse (fun c hc => h c (List.mem_reverse.mp hc)),
    List.reverse_reverse]

theorem isPyDigit_not_ws (c : Char) (h : isPyDigit c = true) : isWs c = false := by
  by_contra hws
  rw [Bool.not_eq_false] at hws
  unfold isWs at hws
  rw [decide_eq_true_eq] at hws
  rcases hws with rfl | rfl | rfl | rfl <;> exact absurd h (by decide)

/-- C10: every wrapped boto3 call yields a response with a normalized `Code`
and no propagated `ClientError`: a success response carries the integer HTTP
status unchanged, a `ClientError` response carries the S3 error code, where an
all-digits code string is coerced to the corresponding int (never remaining a
string) and a non-numeric code string stays as-is. -/
theorem exec_boto3_method_code (status : Int) (code : Str) :
    exec_boto3_method (.success status) = .int status ∧
    (code ≠ [] → (∀ c ∈ code, isPyDigit c = true) →
      exec_boto3_method (.clientError code) = .int (digitsVal code)) ∧
    (pythonInt? code = none →
      exec_boto3_method (.clientError code) = .str code) := by
  refine ⟨rfl, ?_, ?_⟩
  · intro hne hdig
    obtain ⟨c, t, rfl⟩ : ∃ c t, code = c :: t := by
      cases code with
      | nil => exact absurd rfl hne
      | cons c t => exact ⟨c, t, rfl⟩
    have hstrip : pyStrip (c :: t) = c :: t :=
      pyStrip_of_no_ws _ (fun d hd => isPyDigit_not_ws d (hdig d hd))
    have hplus : c ≠ '+' := by
      intro hc
      have := hdig c (by simp)
      rw [hc] at this
      exact absurd this (by decide)
    have hminus : c ≠ '-' := by
      intro hc
      have := hdig c (by simp)
      rw [hc] at this
      exact absurd this (by decide)
    have hall : (c :: t).all isPyDigit = true := by
      simpa [List.all_eq_true] using hdig
    have hParse : pythonInt? (c :: t) = some ((digitsVal (c :: t) : ℤ)) := by
      unfold pythonInt?
      rw [hstrip]
      simp [hplus, hminus, parseDigits?, hall]
    simp only [exec_boto3_method, coerceCode]
    rw [hParse]
  · intro hnone
    simp only [exec_boto3_method, coerceCode]
    rw [hnone]

/-- Witness for `exec_boto3_method_code` at status 200 and the code string
`"403"`. -/
theorem exec_boto3_method_code_witness :
    str "403" ≠ [] ∧ (∀ c ∈ str "403", isPyDigit c = true) ∧
    exec_boto3_method (.clientError (str "403")) = .int (digitsVal (str "403")) ∧
    digitsVal (str "403") = 403 :=
  ⟨by decide, by decide,
    (exec_boto3_method_code 200 (str "403")).2.1 (by decide) (by decide),
    by decide⟩

/-- Statement effect (`"Allow"` / `"Deny"`). -/
inductive Effect where
  | allow
  | deny
deriving DecidableEq

/-- Access decision of the policy evaluator. -/
inductive Decision where
  | allow
  | deny
deriving DecidableEq

/-- Modelled from the spec: the statement shape consumed by the
`PolicyEvaluator` of spec section 4.2, which the spec notes is implicit in the
test suite (no standalone evaluator module exists in the source tree): an
effect plus the optional Principal/Action/Resource lists and their `Not`
complements. -/
structure EvalStatement where
  effect : Effect
  principal : Option (List Str)
  notPrincipal : Option (List Str)
  action : Option (List Str)
  notAction : Option (List Str)
  resource : Option (List Str)
  notResource : Option (List Str)
deriving DecidableEq

/-- Modelled from the spec: resource pattern matching — `*` matches anything, a
pattern with a trailing `*` matches by prefix, any other pattern matches only
itself. -/
def patMatch (pat target : Str) : Bool :=
  match pat.getLast? with
  | some c => if c = '*' then startsWithPre pat.dropLast target else pat = target
  | none => pat = target

/-- Modelled from the spec: principal match — `principal` contains the
requester or `*`, or `not_principal` is set and does not contain the
requester. -/
def principalMatch (st : EvalStatement) (requester : Str) : Bool :=
  (match st.principal with
   | some ps => ps.contains requester || ps.contains (str "*")
   | none => false) ||
  (match st.notPrincipal with
   | some ps => !(ps.contains requester)
   | none => false)

/-- Modelled from the spec: action match — `action` contains the canonical
operation name or `*`, or `not_action` is set and does not contain it. -/
def actionMatch (st : EvalStatement) (operation : Str) : Bool :=
  (match st.action with
   | some acts => acts.contains operation || acts.contains (str "*")
   | none => false) ||
  (match st.notAction with
   | some nacts => !(nacts.contains operation)
   | none => false)

/-- Modelled from the spec: resource match — some `resource` pattern matches
the target, or `not_resource` is set and no pattern in it matches. -/
def resourceMatch (st : EvalStatement) (res : Str) : Bool :=
  (match st.resource with
   | some rs => rs.any (fun pat => patMatch pat res)
   | none => false) ||
  (match st.notResource with
   | some nrs => !(nrs.any (fun pat => patMatch pat res))
   | none => false)

/-- Modelled from the spec: a statement matches the request iff the principal,
action and resource conditions all hold. -/
def stmtMatches (st : EvalStatement) (requester operation res : Str) : Bool :=
  principalMatch st requester && actionMatch st operation && resourceMatch st res

/-- One-pass evaluation walk: an explicit matching Deny wins immediately,
otherwise remember whether a matching Allow was seen. -/
def evalGo (defaultDecision : Decision) (requester operation res : Str) :
    List EvalStatement → Bool → Decision
  | [], sawAllow => if sawAllow then .allow else defaultDecision
  | st :: rest, sawAllow =>
    if stmtMatches st requester operation res then
      match st.effect with
      | .deny => .deny
      | .allow => evalGo defaultDecision requester operation res rest true
    else evalGo defaultDecision requester operation res rest sawAllow

/-- Modelled from the spec: deny-overrides evaluation (spec section 4.2
step 3) — collect the effects of the matching statements; any Deny yields
Deny, otherwise any Allow yields Allow, otherwise the default decision. -/
def evaluate (stmts : List EvalStatement) (defaultDecision : Decision)
    (requester operation res : Str) : Decision :=
  evalGo defaultDecision requester operation res stmts false

theorem evalGo_spec (defaultDecision : Decision) (requester operation res : Str) :
    ∀ (stmts : List EvalStatement) (sawAllow : Bool),
    evalGo defaultDecision requester operation res stmts sawAllow =
      if ∃ st ∈ stmts, stmtMatches st requester operation res = true ∧
          st.effect = .deny then .deny
      else if sawAllow = true ∨ ∃ st ∈ stmts,
          stmtMatches st requester operation res = true ∧ st.effect = .allow then
        .allow
      else defaultDecision := by
  intro stmts
  induction stmts with
  | nil =>
    intro sawAllow
    cases sawAllow <;> simp [evalGo]
  | cons st rest ih =>
    intro sawAllow
    by_cases hm : stmtMatches st requester operation res = true
    · cases heff : st.effect with
      | deny =>
        rw [evalGo, if_pos hm, heff]
        rw [if_pos ⟨st, by simp, hm, heff⟩]
      | allow =>
        rw [evalGo, if_pos hm, heff, ih true]
        have hnd : (∃ s ∈ st :: rest,
            stmtMatches s requester operation res = true ∧ s.effect = .deny) ↔
            (∃ s ∈ rest, stmtMatches s requester operation res = true ∧
              s.effect = .deny) := by
          constructor
          · rintro ⟨s, hmem, hsm, hse⟩
            rcases List.mem_cons.mp hmem with rfl | hmem2
            · rw [heff] at hse; exact absurd hse (by simp)
            · exact ⟨s, hmem2, hsm, hse⟩
          · rintro ⟨s, hmem, hsm, hse⟩
            exact ⟨s, List.mem_cons_of_mem _ hmem, hsm, hse⟩
        by_cases hd : ∃ s ∈ rest,
            stmtMatches s requester operation res = true ∧ s.effect = .deny
        · rw [if_pos hd, if_pos (hnd.mpr hd)]
        · rw [if_neg hd, if_neg (fun hh => hd (hnd.mp hh)), if_pos (Or.inl rfl),
            if_pos (Or.inr ⟨st, by simp, hm, heff⟩)]
    · rw [evalGo, if_neg hm, ih sawAllow]
      have hskip : ∀ eff : Effect, (∃ s ∈ st :: rest,
          stmtMatches s requester operation res = true ∧ s.effect = eff) ↔
          (∃ s ∈ rest, stmtMatches s requester operation res = true ∧
            s.effect = eff) := by
        intro eff
        constructor
        · rintro ⟨s, hmem, hsm, hse⟩
          rcases List.mem_cons.mp hmem with rfl | hmem2
          · exact absurd hsm hm
          · exact ⟨s, hmem2, hsm, hse⟩
        · rintro ⟨s, hmem, hsm, hse⟩
          exact ⟨s, List.mem_cons_of_mem _ hmem, hsm, hse⟩
      by_cases hd : ∃ s ∈ rest,
          stmtMatches s requester operation res = true ∧ s.effect = .deny
      · rw [if_pos hd, if_pos ((hskip .deny).mpr hd)]
      · rw [if_neg hd, if_neg (fun hh => hd ((hskip .deny).mp hh))]
        by_cases ha : sawAllow = true ∨ ∃ s ∈ rest,
            stmtMatches s requester operation res = true ∧ s.effect = .allow
        · rw [if_pos ha]
          rcases ha with ha | ha
          · rw [if_pos (Or.inl ha)]
          · rw [if_pos (Or.inr ((hskip .allow).mpr ha))]
        · rw [if_neg ha, if_neg]
          rintro (hh | hh)
          · exact ha (Or.inl hh)
          · exact ha (Or.inr ((hskip .allow).mp hh))

/-- C1: deny-overrides evaluation — the decision is Deny as soon as some
matching statement denies, Allow when no matching statement denies and some
matching statement allows, and the default decision otherwise; in particular a
policy made of a matching Allow statement and a matching Deny statement
evaluates to Deny. -/
theorem deny_overrides (stmts : List EvalStatement) (defaultDecision : Decision)
    (requester operation res : Str) :
    (evaluate stmts defaultDecision requester operation res =
      if ∃ st ∈ stmts, stmtMatches st requester operation res = true ∧
          st.effect = .deny then .deny
      else if ∃ st ∈ stmts, stmtMatches st requester operation res = true ∧
          st.effect = .allow then .allow
      else defaultDecision) ∧
    (∀ s1 s2 : EvalStatement, stmtMatches s1 requester operation res = true →
      s1.effect = .allow → stmtMatches s2 requester operation res = true →
      s2.effect = .deny →
      evaluate [s1, s2] defaultDecision requester operation res = .deny) := by
  constructor
  · rw [evaluate, evalGo_spec]
    simp
  · intro s1 s2 hm1 he1 hm2 he2
    rw [evaluate, evalGo_spec]
    rw [if_pos ⟨s2, by simp, hm2, he2⟩]

/-- Witness for `deny_overrides`: an Allow-all statement plus a Deny statement
for the same concrete request evaluate to Deny. -/
theorem deny_overrides_witness :
    stmtMatches
        { effect := .allow, principal := some [str "*"], notPrincipal := none,
          action := some [str "*"], notAction := none,
          resource := some [str "*"], notResource := none }
        (str "alice") (str "s3:GetObject") (str "arn:aws:s3:::b/o") = true ∧
    stmtMatches
        { effect := .deny, principal := some [str "alice"], notPrincipal := none,
          action := some [str "s3:GetObject"], notAction := none,
          resource := some [str "arn:aws:s3:::b/o"], notResource := none }
        (str "alice") (str "s3:GetObject") (str "arn:aws:s3:::b/o") = true ∧
    evaluate
        [{ effect := .allow, principal := some [str "*"], notPrincipal := none,
           action := some [str "*"], notAction := none,
           resource := some [str "*"], notResource := none },
         { effect := .deny, principal := some [str "alice"], notPrincipal := none,
           action := some [str "s3:GetObject"], notAction := none,
           resource := some [str "arn:aws:s3:::b/o"], notResource := none }]
        .allow (str "alice") (str "s3:GetObject") (str "arn:aws:s3:::b/o") =
      .deny :=
  ⟨by decide, by decide,
    (deny_overrides
      [{ effect := .allow, principal := some [str "*"], notPrincipal := none,
         action := some [str "*"], notAction := none,
         resource := some [str "*"], notResource := none },
       { effect := .deny, principal := some [str "alice"], notPrincipal := none,
         action := some [str "s3:GetObject"], notAction := none,
         resource := some [str "arn:aws:s3:::b/o"], notResource := none }]
      .allow (str "alice") (str "s3:GetObject")
      (str "arn:aws:s3:::b/o")).2 _ _ (by decide) rfl (by decide) rfl⟩

/-- Error results of the access tester. -/
inductive TesterErr where
  | unexpectedResponseCode (code : CodeVal) (operation : Str)
  | probeException
deriving DecidableEq

/-- Trace events of one `check_access` run. -/
inductive TesterEvent where
  | setupEv
  | operationEv
  | cleanupEv
deriving DecidableEq

/-- Modelled from the spec: the response-code interpretation of
`S3OperationAccessTester.check_access` (spec section 4.4 step 5; the
implementing module `framework/bucket_policies/s3_operation_access_tester.py`
is imported by every bucket-policy test but absent from the source tree):
the expected success code means allowed, `"AccessDenied"` or `403` means
denied, anything else is an `UnexpectedResponseCode` failure carrying the code
and the operation name. -/
def interpret_response_code (expected code : CodeVal) (operation : Str) :
    Except TesterErr Bool :=
  if code = expected then .ok true
  else if code = CodeVal.str (str "AccessDenied") ∨ code = CodeVal.int 403 then
    .ok false
  else .error (.unexpectedResponseCode code operation)

/-- Modelled from the spec: `S3OperationAccessTester.check_access` (spec
section 4.4) around an abstract probed operation: resolve the strategy, run
`setup`, run `do_operation` (which either returns a coded response or raises),
run `cleanup` in a `finally` position so it executes on both exit paths, and
finally interpret the response code.  The second component is the event trace
of the strategy calls made. -/
def check_access (expected : CodeVal) (operation : Str)
    (probe : Except Unit CodeVal) : Except TesterErr Bool × List TesterEvent :=
  match probe with
  | .ok code =>
    (interpret_response_code expected code operation,
     [.setupEv, .operationEv, .cleanupEv])
  | .error _ => (.error .probeException, [.setupEv, .cleanupEv])

/-- C2: for every strategy (an expected success code of 200 or 204, the values
the concrete strategies return) and every coded response of the probed
operation, the access check returns `true` exactly when the code equals the
expected success code, `false` when it is `"AccessDenied"` or `403`, and fails
with `UnexpectedResponseCode` carrying the code and operation name in every
other case. -/
theorem access_check_interpretation (expected code : CodeVal) (operation : Str)
    (hexp : expected = .int 200 ∨ expected = .int 204) :
    ((check_access expected operation (.ok code)).1 = .ok true ↔
      code = expected) ∧
    (code = .str (str "AccessDenied") ∨ code = .int 403 →
      (check_access expected operation (.ok code)).1 = .ok false) ∧
    (code ≠ expected → code ≠ .str (str "AccessDenied") → code ≠ .int 403 →
      (check_access expected operation (.ok code)).1 =
        .error (.unexpectedResponseCode code operation)) := by
  refine ⟨⟨?_, ?_⟩, ?_, ?_⟩
  · intro h
    by_contra hne
    rw [check_access, interpret_response_code, if_neg hne] at h
    by_cases hden : code = CodeVal.str (str "AccessDenied") ∨ code = CodeVal.int 403
    · rw [if_pos hden] at h
      exact Bool.noConfusion (Except.ok.inj h)
    · rw [if_neg hden] at h
      exact Except.noConfusion h
  · intro h
    rw [check_access, interpret_response_code, if_pos h]
  · intro hden
    have hne : code ≠ expected := by
      rcases hexp with rfl | rfl <;> rcases hden with rfl | rfl <;> decide
    rw [check_access, interpret_response_code, if_neg hne, if_pos hden]
  · intro hne hd1 hd2
    rw [check_access, interpret_response_code, if_neg hne,
      if_neg (by rintro (h | h) <;> [exact hd1 h; exact hd2 h])]

/-- Witness for `access_check_interpretation` with expected code 200: a 200
response is allowed, an `"AccessDenied"` response is denied, and a 500
response is an `UnexpectedResponseCode` failure. -/
theorem access_check_interpretation_witness :
    ((check_access (.int 200) (str "GetObject")
        (.ok (.int 200))).1 = .ok true ↔ CodeVal.int 200 = CodeVal.int 200) ∧
    (check_access (.int 200) (str "GetObject")
        (.ok (.str (str "AccessDenied")))).1 = .ok false ∧
    (check_access (.int 200) (str "GetObject")
        (.ok (.int 500))).1 =
      .error (.unexpectedResponseCode (.int 500) (str "GetObject")) :=
  ⟨(access_check_interpretation (.int 200) (.int 200) (str "GetObject")
      (Or.inl rfl)).1,
   (access_check_interpretation (.int 200) (.str (str "AccessDenied"))
      (str "GetObject") (Or.inl rfl)).2.1 (Or.inl rfl),
   (access_check_interpretation (.int 200) (.int 500) (str "GetObject")
      (Or.inl rfl)).2.2 (by decide) (by decide) (by decide)⟩

/-- C3: `cleanup` runs on every exit path of the access check — the event
trace of a run contains the cleanup call as its final event both when the
probed operation returns a response and when it raises. -/
theorem cleanup_runs_on_all_paths (expected : CodeVal) (operation : Str)
    (probe : Except Unit CodeVal) :
    TesterEvent.cleanupEv ∈ (check_access expected operation probe).2 ∧
    (check_access expected operation probe).2.getLast? =
      some TesterEvent.cleanupEv := by
  cases probe <;> exact ⟨by simp [check_access], by simp [check_access]⟩

/-- Bucket-side policy state the policy-operation strategies act on: the
currently active policy, or `none` when no policy is set. -/
structure BucketState where
  policy : Option BucketPolicy

/-- Server behaviour of `put_bucket_policy`: parse the submitted JSON text and
install the parsed policy, rejecting malformed text without a state change. -/
def put_bucket_policy (st : BucketState) (s : Str) : BucketState × Bool :=
  match BucketPolicy.from_json s with
  | some p => ({ policy := some p }, true)
  | none => (st, false)

/-- Model of `PolicyOperationValidationStrategy.setup` from
`framework/bucket_policies/access_validation_strategies/policy_operation_validation_strategy.py`:
snapshot `original_policy` by reading and re-parsing the bucket's current
policy text, with the `ClientError` of the no-policy case caught and turned
into `None`; a JSON decode failure (unreachable for server-held policies)
would propagate. -/
def policyOpSetup (st : BucketState) : Except PyErr (Option BucketPolicy) :=
  match st.policy with
  | none => .ok none
  | some p =>
    match BucketPolicy.from_json (BucketPolicy.toStr p) with
    | some q => .ok (some q)
    | none => .error .typeError

/-- Model of `PolicyOperationValidationStrategy.cleanup`: when a snapshot was
taken (`if self.original_policy:`), put its serialization back; when the
snapshot is `None`, do nothing. -/
def policyOpCleanup (original : Option BucketPolicy) (st : BucketState) :
    BucketState :=
  match original with
  | none => st
  | some q => (put_bucket_policy st (BucketPolicy.toStr q)).1

/-- One full strategy run around an arbitrary probed operation: `setup`,
`do_operation` (an arbitrary state transformer — the tested client may or may
not mutate the policy), then `cleanup`. -/
def runPolicyOpStrategy (st : BucketState)
    (probe : BucketState → BucketState) : Except PyErr BucketState :=
  match policyOpSetup st with
  | .error e => .error e
  | .ok original => .ok (policyOpCleanup original (probe st))

/-- The test policy built inline by
`PutBucketPolicyValidationStrategy.do_operation` (Allow `*` on
`PutBucketPolicy` for every resource). -/
def put_bucket_policy_test_policy : Except PyErr BucketPolicy := do
  let p := Framework.add_allow_statement BucketPolicy.init
  let p ← Framework.add_principal p (str "*")
  let p ← Framework.add_action p (str "PutBucketPolicy")
  let p ← Framework.add_resource p (str "*")
  .ok p

/-- Model of `PutBucketPolicyValidationStrategy.do_operation` with the tested
client: when the client is allowed, the built test policy is installed; when
access is denied, the state is unchanged. -/
def putBucketPolicyProbe (allowed : Bool) (st : BucketState) : BucketState :=
  match put_bucket_policy_test_policy with
  | .error _ => st
  | .ok tp => if allowed then (put_bucket_policy st (BucketPolicy.toStr tp)).1 else st

/-- Model of `GetBucketPolicyValidationStrategy.do_operation`: a read, no
state change whether allowed or denied. -/
def getBucketPolicyProbe (st : BucketState) : BucketState := st

/-- C7 counterexample: starting from the no-policy state (which `setup`
tolerates), an allowed `PutBucketPolicy` probe leaves its test policy active —
`cleanup` restores nothing, so the final state differs from the prior
state. -/
theorem policy_op_no_restore_counterexample :
    (match runPolicyOpStrategy { policy := none } (putBucketPolicyProbe true) with
     | .ok st2 => st2.policy.isSome
     | .error _ => false) = true ∧
    (Option.isSome (none : Option BucketPolicy)) = false := by
  constructor
  · obtain ⟨tp, htp⟩ : ∃ tp, put_bucket_policy_test_policy = .ok tp := ⟨_, rfl⟩
    simp [runPolicyOpStrategy, policyOpSetup, putBucketPolicyProbe, htp,
      put_bucket_policy, from_json_toStr tp, policyOpCleanup]
  · rfl

/-- C7 amended: whenever a policy was in force before `setup`, the
`setup`/`do_operation`/`cleanup` run of a policy-operation strategy succeeds
and restores exactly that policy, whatever the probed operation did to the
bucket; when no policy was set, `cleanup` restores nothing (a read-only probe
such as `GetBucketPolicy` still leaves the state unchanged, but a mutating
allowed `PutBucketPolicy` probe leaks its test policy). -/
theorem policy_op_cleanup_restores (st : BucketState) (q : BucketPolicy)
    (probe : BucketState → BucketState) (h : st.policy = some q) :
    runPolicyOpStrategy st probe =
      .ok (policyOpCleanup (some q) (probe st)) ∧
    (policyOpCleanup (some q) (probe st)).policy = some q := by
  have hsetup : policyOpSetup st = .ok (some q) := by
    simp [policyOpSetup, h, from_json_toStr q]
  have hclean : ∀ st1, (policyOpCleanup (some q) st1).policy = some q := by
    intro st1
    simp [policyOpCleanup, put_bucket_policy, from_json_toStr q]
  refine ⟨?_, hclean (probe st)⟩
  rw [runPolicyOpStrategy, hsetup]

/-- Witness for `policy_op_cleanup_restores`: a concrete bucket state holding
the empty default policy, probed by an arbitrary mutation that clears the
policy, is restored by cleanup. -/
theorem policy_op_cleanup_restores_witness :
    ({ policy := some BucketPolicy.init } : BucketState).policy =
      some BucketPolicy.init ∧
    (runPolicyOpStrategy { policy := some BucketPolicy.init }
        (fun _ => { policy := none }) =
      .ok (policyOpCleanup (some BucketPolicy.init) { policy := none }) ∧
    (policyOpCleanup (some BucketPolicy.init) { policy := none }).policy =
      some BucketPolicy.init) :=
  ⟨rfl, policy_op_cleanup_restores { policy := some BucketPolicy.init }
    BucketPolicy.init (fun _ => { policy := none }) rfl⟩
